import Mathlib

/- Verification of the lunar-lander bot (src/bot.py): a shallow embedding of
   the terrain analyzer, the stopping-height physics model, and the per-tick
   maneuver state machine, together with theorems checking the documented
   behaviour.  Floats are idealised as exact rationals; the cosine factor of
   the thrust projection is supplied by the configuration (abstracting the
   transcendental `np.cos(heading * np.pi / 180)`); the IEEE special values
   that numpy float division by zero produces are modelled by an explicit
   value type rather than by Lean's `x / 0 = 0` convention. -/

namespace LLBot

/-- External configuration (`lunarlander.config`): engine thrust magnitude,
vertical gravity component `config.gravity[1]`, and the cosine-of-degrees map
abstracting `np.cos(heading * np.pi / 180)`.  Any instantiation with
`cosdeg 0 = 1` agrees with the real cosine at heading `0`. -/
structure Cfg where
  thrust : ℚ
  gy : ℚ
  cosdeg : ℚ → ℚ

/-- Result values of `rotate`: the `"left"` / `"right"` strings of the source. -/
inductive RotCmd where
  | left
  | right
  deriving DecidableEq

/-- Embeds `rotate(current, target, tolerance=0.5)` from src/bot.py:
return `None` when within tolerance, else `"left"` when `current < target`,
else `"right"`.  Call sites pass the default tolerance `1/2` explicitly. -/
def rotate (current target tolerance : ℚ) : Option RotCmd :=
  if |current - target| < tolerance then none
  else if current < target then some .left else some .right

/-- The instruction pair (left, right) produced from a rotation command by the
`if command == "left": ... elif command == "right": ...` dispatch. -/
def lrOf : Option RotCmd → Bool × Bool
  | some .left => (true, false)
  | some .right => (false, true)
  | none => (false, false)

/-- Value of the stopping-height computation: a finite float idealised as a
rational, or the IEEE special values that the numpy expression
`h0 - v0**2 / (a - g)` produces when `a - g == 0.0`
(`v0**2 / 0.0 = inf` so the result is `-inf` when `v0 /= 0`, and
`0.0 / 0.0 = nan` when `v0 == 0`; no exception is raised). -/
inductive FVal where
  | nan
  | neginf
  | fin (q : ℚ)
  deriving DecidableEq

/-- IEEE comparison `v < b` of a stopping-height value against a finite bound:
`-inf < b` is true, `nan < b` is false. -/
def FVal.ltq : FVal → ℚ → Bool
  | .nan, _ => false
  | .neginf, _ => true
  | .fin q, b => decide (q < b)

/-- Embeds `stop_at_if_slow_down(h0, v0, heading)` from src/bot.py:
`a = np.cos(heading * np.pi / 180) * config.thrust`,
`g = abs(config.gravity[1])`, result `h0 - v0**2 / (a - g)`,
with the float division-by-zero behaviour made explicit. -/
def stop_at_if_slow_down (cfg : Cfg) (h0 v0 heading : ℚ) : FVal :=
  let a := cfg.cosdeg heading * cfg.thrust
  let g := |cfg.gy|
  if a - g = 0 then (if v0 = 0 then .nan else .neginf)
  else .fin (h0 - v0 ^ 2 / (a - g))

/-- Modelled from the spec: the standard constant-acceleration
stopping-distance formula `h_stop = h0 - v0^2 / (2*(a - g))`, with
`a = cos(heading°) * thrust` the upward thrust component and
`g` the gravity magnitude. -/
def spec_stop_height (cfg : Cfg) (h0 v0 heading : ℚ) : ℚ :=
  h0 - v0 ^ 2 / (2 * (cfg.cosdeg heading * cfg.thrust - |cfg.gy|))

/-- Elementwise `np.not_equal(terrain[:-1], terrain[1:])`: entry `i` records
whether sample `i+1` differs from its predecessor. -/
def pairNe : ℚ → List ℚ → List Bool
  | _, [] => []
  | prev, y :: ys => decide (prev ≠ y) :: pairNe y ys

/-- The boolean array `loc_run_start` of `find_landing_site`: `True` at index 0
and wherever the height differs from the previous sample. -/
def loc_run_start : List ℚ → List Bool
  | [] => []
  | x :: xs => true :: pairNe x xs

/-- `np.nonzero` on a boolean list: the indices of the `true` entries, in
order, starting from a given base index. -/
def trueIdxs : List Bool → ℕ → List ℕ
  | [], _ => []
  | b :: bs, i => if b then i :: trueIdxs bs (i + 1) else trueIdxs bs (i + 1)

/-- `run_starts = np.nonzero(loc_run_start)[0]` of `find_landing_site`. -/
def run_starts (terrain : List ℚ) : List ℕ :=
  trueIdxs (loc_run_start terrain) 0

/-- `np.diff`: successive differences of a list of indices. -/
def diffs : List ℕ → List ℕ
  | a :: b :: rest => (b - a) :: diffs (b :: rest)
  | _ => []

/-- `run_lengths = np.diff(np.append(run_starts, n))` of `find_landing_site`. -/
def run_lengths (terrain : List ℚ) : List ℕ :=
  diffs (run_starts terrain ++ [terrain.length])

/-- `np.argmax` on a list of naturals: index of the first occurrence of the
maximum (numpy returns the first maximal index; on an empty list numpy raises,
and the call site only reaches it with a non-empty list). -/
def np_argmaxAux : List ℕ → ℕ → ℕ → ℕ → ℕ
  | [], _, bi, _ => bi
  | x :: xs, i, bi, bv =>
    if bv < x then np_argmaxAux xs (i + 1) i x else np_argmaxAux xs (i + 1) bi bv

/-- `np.argmax` wrapper; `0` on the empty list (unreached by the embedding). -/
def np_argmax : List ℕ → ℕ
  | [] => 0
  | x :: xs => np_argmaxAux xs 1 0 x

/-- The IndexError message raised by `loc_run_start[0] = True` on a
zero-length terrain. -/
def indexError0 : String := "index 0 is out of bounds for axis 0 with size 0"

/-- Embeds `find_landing_site(terrain)` from src/bot.py.  On a zero-length
terrain the assignment `loc_run_start[0] = True` raises an IndexError, so the
embedding returns an error; otherwise the largest run is located with
`np.argmax` and its midpoint `int(start + (end - start) * 0.5)` is returned
when the run is longer than 40 samples. -/
def find_landing_site (terrain : List ℚ) : Except String (Option ℕ) :=
  match terrain with
  | [] => .error indexError0
  | _ :: _ =>
    let starts := run_starts terrain
    let lengths := run_lengths terrain
    let imax := np_argmax lengths
    let start := starts.getD imax 0
    let e := start + lengths.getD imax 0
    if 40 < e - start then
      .ok (some (⌊(start : ℚ) + ((e : ℚ) - (start : ℚ)) * (1 / 2)⌋.toNat))
    else .ok none

/-- Modelled from the spec: the maximal runs of consecutive equal-height
samples of a profile as (start index, length) pairs, accumulating the current
run's height, start and length. -/
def runsAux : ℚ → ℕ → ℕ → List ℚ → List (ℕ × ℕ)
  | _, s, len, [] => [(s, len)]
  | v, s, len, x :: xs =>
    if x = v then runsAux v s (len + 1) xs else (s, len) :: runsAux x (s + len) 1 xs

/-- Modelled from the spec: the run decomposition of a terrain profile
("a run starts at index 0 and at every index whose height differs from its
predecessor"). -/
def specRuns : List ℚ → List (ℕ × ℕ)
  | [] => []
  | x :: xs => runsAux x 0 1 xs

/-- `np.max` of a height profile (requires a non-empty array in numpy; every
call site of the embedding reaches it only with a non-empty profile). -/
def nmax : List ℚ → ℚ
  | [] => 0
  | x :: xs => xs.foldl max x

/-- The per-tick control output (`Instructions`): main engine, rotate left,
rotate right.  A fresh `Instructions()` has all three flags off. -/
structure Instructions where
  main : Bool
  left : Bool
  right : Bool
  deriving DecidableEq

/-- Own-craft kinematics read from the players map each tick. -/
structure PlayerInfo where
  position : ℚ × ℚ
  velocity : ℚ × ℚ
  heading : ℚ

/-- The four behavioural states held in `self.state` (stored callables in the
source, a tag here). -/
inductive StateTag where
  | initialManoeuvre
  | waitForLandingSite
  | alignWithLandingSite
  | land
  deriving DecidableEq

/-- The controller-owned mutable fields of `Bot`: the cached landing site
`self.target_site` and the current behavioural state `self.state`. -/
structure BotState where
  target_site : Option ℕ
  state : StateTag
  deriving DecidableEq

/-- `Bot.__init__`: no cached site, initial manoeuvre state. -/
def initBot : BotState := ⟨none, .initialManoeuvre⟩

/-- The TypeError message of `self.target_site - x` when the site is `None`. -/
def noneTypeError : String := "unsupported operand type for subtraction"

/-- The ValueError message of `np.max` on a zero-size array. -/
def emptyArrayError : String := "zero-size array to reduction operation maximum"

/-- The IndexError message of `terrain[self.target_site]` out of range. -/
def landIndexError : String := "index is out of bounds for axis 0"

/-- Embeds `Bot.initial_manoeuvre`: fire the main engine while `vx > 10`,
otherwise rotate toward heading 0; once the rotation command is `None`,
move on to the landing-site search. -/
def initial_manoeuvre (b : BotState) (me : PlayerInfo) :
    Except String (Instructions × BotState) :=
  let vx := me.velocity.1
  let heading := me.heading
  if vx > 10 then
    .ok (⟨true, false, false⟩, ⟨b.target_site, .initialManoeuvre⟩)
  else
    match rotate heading 0 (1 / 2) with
    | some .left => .ok (⟨false, true, false⟩, ⟨b.target_site, .initialManoeuvre⟩)
    | some .right => .ok (⟨false, false, true⟩, ⟨b.target_site, .initialManoeuvre⟩)
    | none => .ok (⟨false, false, false⟩, ⟨b.target_site, .waitForLandingSite⟩)

/-- Embeds `Bot.wait_for_landing_site`: search for a site (caching the result),
hand over to the alignment state once one is cached, otherwise hover by firing
the main engine whenever the predicted stop height is below the hover height
while descending. -/
def wait_for_landing_site (cfg : Cfg) (b : BotState) (me : PlayerInfo)
    (terrain : List ℚ) : Except String (Instructions × BotState) :=
  match (match b.target_site with
         | none => find_landing_site terrain
         | some t => .ok (some t)) with
  | .error e => .error e
  | .ok (some t) => .ok (⟨false, false, false⟩, ⟨some t, .alignWithLandingSite⟩)
  | .ok none =>
    let hover_height := nmax terrain + 50
    let would_stop_at := stop_at_if_slow_down cfg me.position.2 me.velocity.2 me.heading
    let main : Bool := FVal.ltq would_stop_at hover_height && decide (me.velocity.2 < 0)
    .ok (⟨main, false, false⟩, ⟨none, .waitForLandingSite⟩)

/-- Embeds `Bot.align_with_landing_site`: keep altitude with the main engine,
cancel horizontal speed with banked thrust once within 50 units of the site
(the leftward branch assigns `instructions.main = False`), and commit to
landing once within 30 units. -/
def align_with_landing_site (cfg : Cfg) (b : BotState) (me : PlayerInfo)
    (terrain : List ℚ) : Except String (Instructions × BotState) :=
  let x := me.position.1
  let vx := me.velocity.1
  let vy := me.velocity.2
  let heading := me.heading
  if terrain = [] then .error emptyArrayError
  else
    let hover_height := nmax terrain + 50
    let would_stop_at := stop_at_if_slow_down cfg me.position.2 me.velocity.2 me.heading
    let main0 : Bool := FVal.ltq would_stop_at hover_height && decide (vy < 0)
    match b.target_site with
    | none => .error noneTypeError
    | some ts =>
      let diff : ℚ := (ts : ℚ) - x
      let inner : Bool × (Bool × Bool) :=
        if |diff| < 50 then
          let cm : Option RotCmd × Bool :=
            if |vx| ≤ 0.1 then (rotate heading 0 (1 / 2), main0)
            else if vx > 0.1 then (rotate heading 90 (1 / 2), true)
            else (rotate heading (-90) (1 / 2), false)
          let main1 : Bool := if |vx| < 0.5 ∧ vy < -3 then true else cm.2
          (main1, lrOf cm.1)
        else (main0, (false, false))
      let next : StateTag := if |diff| < 30 then .land else .alignWithLandingSite
      .ok (⟨inner.1, inner.2.1, inner.2.2⟩, ⟨some ts, next⟩)

/-- Embeds `Bot.land`: the horizontal-speed cancellation of the alignment
state with 45-degree bank angles, then the three final braking triggers
(stop point below the site height minus 60, altitude within 15 of the site,
or descent faster than 5 units per second). -/
def land (cfg : Cfg) (b : BotState) (me : PlayerInfo) (terrain : List ℚ) :
    Except String (Instructions × BotState) :=
  let x := me.position.1
  let y := me.position.2
  let vx := me.velocity.1
  let vy := me.velocity.2
  let heading := me.heading
  match b.target_site with
  | none => .error noneTypeError
  | some ts =>
    let diff : ℚ := (ts : ℚ) - x
    let inner : Bool × (Bool × Bool) :=
      if |diff| < 50 then
        let cm : Option RotCmd × Bool :=
          if |vx| ≤ 0.1 then (rotate heading 0 (1 / 2), false)
          else if vx > 0.1 then (rotate heading 45 (1 / 2), true)
          else (rotate heading (-45) (1 / 2), false)
        let main1 : Bool := if |vx| > 2 ∧ vy < -3 then true else cm.2
        (main1, lrOf cm.1)
      else (false, (false, false))
    if ts < terrain.length then
      let target_height := terrain.getD ts 0
      let would_stop_at := stop_at_if_slow_down cfg y vy heading
      let main2 : Bool := if FVal.ltq would_stop_at (target_height - 60) then true else inner.1
      let main3 : Bool := if |y - target_height| < 15 then true else main2
      let main4 : Bool := if vy < -5 then true else main3
      .ok (⟨main4, inner.2.1, inner.2.2⟩, ⟨some ts, .land⟩)
    else .error landIndexError

/-- One tick of `Bot.run`: dispatch on the stored state, produce the
instructions and install the returned next state. -/
def stepBot (cfg : Cfg) (b : BotState) (me : PlayerInfo) (terrain : List ℚ) :
    Except String (Instructions × BotState) :=
  match b.state with
  | .initialManoeuvre => initial_manoeuvre b me
  | .waitForLandingSite => wait_for_landing_site cfg b me terrain
  | .alignWithLandingSite => align_with_landing_site cfg b me terrain
  | .land => land cfg b me terrain

/-- The landing-site invariant of the controller: every cached site index is
within the terrain bounds, and in the alignment and landing states a site is
cached. -/
def SiteInv (b : BotState) (n : ℕ) : Prop :=
  (∀ ts, b.target_site = some ts → ts < n) ∧
  ((b.state = .alignWithLandingSite ∨ b.state = .land) → b.target_site ≠ none)

/-- Concrete configuration with unit thrust: the vertical thrust component at
heading 0 exactly cancels gravity. -/
def cfgU : Cfg := ⟨1, -1, fun _ => 1⟩

/-- Concrete configuration with thrust 2 and unit gravity. -/
def cfgT2 : Cfg := ⟨2, -1, fun _ => 1⟩

/-- Concrete configuration with thrust 4 and unit gravity. -/
def cfgT4 : Cfg := ⟨4, -1, fun _ => 1⟩

/-- Craft high above a flat terrain, descending slowly, upright. -/
def meHover : PlayerInfo := ⟨(0, 100), (0, -1), 0⟩

/-- Craft over the site, drifting left slowly while descending. -/
def meDrift : PlayerInfo := ⟨(0, 10), (-1/5, -2), 0⟩

/-- Craft with large leftward horizontal velocity, already upright. -/
def meFast : PlayerInfo := ⟨(0, 0), (-20, 0), 0⟩

/-- Craft just above the site, descending fast, no horizontal motion. -/
def meDrop : PlayerInfo := ⟨(0, 10), (0, -6), 0⟩

/-- Craft rotated to heading 10, at rest. -/
def meTilt : PlayerInfo := ⟨(0, 0), (0, 0), 10⟩

/-- The left/right dispatch never sets both rotation flags. -/
theorem lrOf_not_both (c : Option RotCmd) :
    ¬((lrOf c).1 = true ∧ (lrOf c).2 = true) := by
  rcases c with _ | c
  · simp [lrOf]
  · cases c <;> simp [lrOf]

theorem diffs_cons_cons (a b : ℕ) (rest : List ℕ) :
    diffs (a :: b :: rest) = (b - a) :: diffs (b :: rest) := rfl

theorem diffs_length (l : List ℕ) : (diffs l).length = l.length - 1 := by
  induction l with
  | nil => rfl
  | cons a l ih =>
    cases l with
    | nil => rfl
    | cons b rest =>
      rw [diffs_cons_cons]
      simp only [List.length_cons] at ih ⊢
      omega

theorem trueIdxs_cons_true (bs : List Bool) (i : ℕ) :
    trueIdxs (true :: bs) i = i :: trueIdxs bs (i + 1) := rfl

theorem trueIdxs_cons_false (bs : List Bool) (i : ℕ) :
    trueIdxs (false :: bs) i = trueIdxs bs (i + 1) := rfl

/-- The numpy run-start/run-length computation agrees with the recursive run
decomposition: zipping the start indices with the lengths produced by the
`np.diff` trick yields exactly the runs accumulated by `runsAux`. -/
theorem runsAux_eq : ∀ (xs : List ℚ) (v : ℚ) (s len : ℕ),
    List.zip (s :: trueIdxs (pairNe v xs) (s + len))
        (diffs ((s :: trueIdxs (pairNe v xs) (s + len)) ++ [s + len + xs.length]))
      = runsAux v s len xs
  | [], v, s, len => by
    simp [pairNe, trueIdxs, runsAux, diffs, List.zip]
  | x :: xs, v, s, len => by
    by_cases hx : x = v
    · subst hx
      have hpair : pairNe x (x :: xs) = false :: pairNe x xs := by simp [pairNe]
      have e1 : s + len + 1 = s + (len + 1) := by omega
      have e2 : s + len + (x :: xs).length = s + (len + 1) + xs.length := by
        simp only [List.length_cons]; omega
      rw [hpair, trueIdxs_cons_false, e2, e1]
      have hr : runsAux x s len (x :: xs) = runsAux x s (len + 1) xs := by
        rw [runsAux, if_pos rfl]
      rw [hr]
      exact runsAux_eq xs x s (len + 1)
    · have hvx : v ≠ x := fun h => hx h.symm
      have hpair : pairNe v (x :: xs) = true :: pairNe x xs := by simp [pairNe, hvx]
      have e2 : s + len + (x :: xs).length = s + len + 1 + xs.length := by
        simp only [List.length_cons]; omega
      rw [hpair, trueIdxs_cons_true, e2]
      rw [List.cons_append, List.cons_append, diffs_cons_cons]
      have hsub : s + len - s = len := by omega
      rw [hsub, List.zip_cons_cons]
      have hr : runsAux v s len (x :: xs) = (s, len) :: runsAux x (s + len) 1 xs := by
        rw [runsAux, if_neg hx]
      rw [hr]
      exact congrArg (List.cons (s, len)) (runsAux_eq xs x (s + len) 1)

/-- The source's `(run_starts, run_lengths)` pairs are exactly the spec-side
run decomposition. -/
theorem zip_runs_eq (t : List ℚ) :
    List.zip (run_starts t) (run_lengths t) = specRuns t := by
  cases t with
  | nil => rfl
  | cons x xs =>
    have h := runsAux_eq xs x 0 1
    have h01 : (0 : ℕ) + 1 = 1 := rfl
    have hend : (0 : ℕ) + 1 + xs.length = (x :: xs).length := by
      simp only [List.length_cons]; omega
    rw [h01, hend] at h
    simpa [run_starts, run_lengths, loc_run_start, specRuns, trueIdxs_cons_true] using h

theorem run_lengths_length (t : List ℚ) :
    (run_lengths t).length = (run_starts t).length := by
  simp only [run_lengths, diffs_length, List.length_append, List.length_singleton]
  omega

theorem run_starts_eq_map (t : List ℚ) :
    run_starts t = (specRuns t).map Prod.fst := by
  rw [← zip_runs_eq t, List.map_fst_zip]
  exact le_of_eq (run_lengths_length t).symm

theorem run_lengths_eq_map (t : List ℚ) :
    run_lengths t = (specRuns t).map Prod.snd := by
  rw [← zip_runs_eq t, List.map_snd_zip]
  exact le_of_eq (run_lengths_length t)

/-- Invariant of the `np.argmax` fold: the result is either the incoming best
index with no strictly larger element in the remaining list, or the absolute
position of the first element that beats the incoming best and is maximal. -/
theorem np_argmaxAux_spec : ∀ (l : List ℕ) (i bi bv : ℕ),
    (np_argmaxAux l i bi bv = bi ∧ ∀ j, j < l.length → l.getD j 0 ≤ bv) ∨
    (∃ j, j < l.length ∧ np_argmaxAux l i bi bv = i + j ∧ bv < l.getD j 0 ∧
      (∀ k, k < l.length → l.getD k 0 ≤ l.getD j 0) ∧
      (∀ k, k < j → l.getD k 0 < l.getD j 0))
  | [], i, bi, bv => Or.inl ⟨rfl, by intro j hj; simp at hj⟩
  | x :: xs, i, bi, bv => by
    by_cases hx : bv < x
    · have hstep : np_argmaxAux (x :: xs) i bi bv = np_argmaxAux xs (i + 1) i x := by
        rw [np_argmaxAux, if_pos hx]
      rcases np_argmaxAux_spec xs (i + 1) i x with ⟨h1, h2⟩ | ⟨j, hj, heq, hgt, hmax, hfirst⟩
      · refine Or.inr ⟨0, by simp, by rw [hstep, h1, Nat.add_zero], hx, ?_, ?_⟩
        · intro k hk
          cases k with
          | zero => exact le_refl _
          | succ k =>
            simp only [List.getD_cons_succ, List.getD_cons_zero]
            exact h2 k (by simpa [Nat.succ_lt_succ_iff] using hk)
        · intro k hk; omega
      · refine Or.inr ⟨j + 1, by simpa [Nat.succ_lt_succ_iff] using hj,
          by rw [hstep, heq]; omega, ?_, ?_, ?_⟩
        · simpa [List.getD_cons_succ] using lt_trans hx hgt
        · intro k hk
          cases k with
          | zero => simpa [List.getD_cons_succ] using le_of_lt hgt
          | succ k =>
            simp only [List.getD_cons_succ]
            exact hmax k (by simpa [Nat.succ_lt_succ_iff] using hk)
        · intro k hk
          cases k with
          | zero => simpa [List.getD_cons_succ] using hgt
          | succ k =>
            simp only [List.getD_cons_succ]
            exact hfirst k (by omega)
    · have hstep : np_argmaxAux (x :: xs) i bi bv = np_argmaxAux xs (i + 1) bi bv := by
        rw [np_argmaxAux, if_neg hx]
      rcases np_argmaxAux_spec xs (i + 1) bi bv with ⟨h1, h2⟩ | ⟨j, hj, heq, hgt, hmax, hfirst⟩
      · refine Or.inl ⟨by rw [hstep, h1], ?_⟩
        intro j hj
        cases j with
        | zero => simpa using le_of_not_lt hx
        | succ j =>
          simp only [List.getD_cons_succ]
          exact h2 j (by simpa [Nat.succ_lt_succ_iff] using hj)
      · refine Or.inr ⟨j + 1, by simpa [Nat.succ_lt_succ_iff] using hj,
          by rw [hstep, heq]; omega, by simpa [List.getD_cons_succ] using hgt, ?_, ?_⟩
        · intro k hk
          cases k with
          | zero =>
            simp only [List.getD_cons_succ, List.getD_cons_zero]
            exact le_trans (le_of_not_lt hx) (le_of_lt hgt)
          | succ k =>
            simp only [List.getD_cons_succ]
            exact hmax k (by simpa [Nat.succ_lt_succ_iff] using hk)
        · intro k hk
          cases k with
          | zero =>
            simp only [List.getD_cons_succ, List.getD_cons_zero]
            exact lt_of_le_of_lt (le_of_not_lt hx) hgt
          | succ k =>
            simp only [List.getD_cons_succ]
            exact hfirst k (by omega)

/-- `np.argmax` returns an in-range index of a maximal element, and every
earlier element is strictly smaller (first-maximum semantics). -/
theorem np_argmax_spec (x : ℕ) (xs : List ℕ) :
    np_argmax (x :: xs) < (x :: xs).length ∧
    (∀ j, j < (x :: xs).length →
      (x :: xs).getD j 0 ≤ (x :: xs).getD (np_argmax (x :: xs)) 0) ∧
    (∀ k, k < np_argmax (x :: xs) →
      (x :: xs).getD k 0 < (x :: xs).getD (np_argmax (x :: xs)) 0) := by
  have hdef : np_argmax (x :: xs) = np_argmaxAux xs 1 0 x := rfl
  rcases np_argmaxAux_spec xs 1 0 x with ⟨h1, h2⟩ | ⟨j, hj, heq, hgt, hmax, hfirst⟩
  · rw [hdef, h1]
    refine ⟨by simp, ?_, by intro k hk; omega⟩
    intro j hj
    cases j with
    | zero => simp
    | succ j =>
      simp only [List.getD_cons_succ, List.getD_cons_zero]
      exact h2 j (by simpa [Nat.succ_lt_succ_iff] using hj)
  · have heq' : np_argmax (x :: xs) = j + 1 := by rw [hdef, heq]; omega
    rw [heq']
    refine ⟨by simpa [Nat.succ_lt_succ_iff] using hj, ?_, ?_⟩
    · intro k hk
      cases k with
      | zero =>
        simp only [List.getD_cons_succ, List.getD_cons_zero]
        exact le_of_lt hgt
      | succ k =>
        simp only [List.getD_cons_succ]
        exact hmax k (by simpa [Nat.succ_lt_succ_iff] using hk)
    · intro k hk
      cases k with
      | zero => simpa [List.getD_cons_succ] using hgt
      | succ k =>
        simp only [List.getD_cons_succ]
        exact hfirst k (by omega)

/-- Every run produced by `runsAux` has positive length and stays within the
covered range of the profile. -/
theorem runsAux_bounds : ∀ (xs : List ℚ) (v : ℚ) (s len : ℕ) (p : ℕ × ℕ),
    p ∈ runsAux v s len xs → 1 ≤ len → 1 ≤ p.2 ∧ p.1 + p.2 ≤ s + len + xs.length
  | [], v, s, len, p => by
    intro hp hlen
    simp only [runsAux, List.mem_singleton] at hp
    subst hp
    simp only [List.length_nil]
    omega
  | x :: xs, v, s, len, p => by
    intro hp hlen
    by_cases hx : x = v
    · rw [runsAux, if_pos hx] at hp
      have := runsAux_bounds xs v s (len + 1) p hp (by omega)
      simp only [List.length_cons]
      omega
    · rw [runsAux, if_neg hx] at hp
      rcases List.mem_cons.mp hp with hp | hp
      · subst hp
        simp only [List.length_cons]
        omega
      · have := runsAux_bounds xs x (s + len) 1 p hp (by omega)
        simp only [List.length_cons]
        omega

/-- Every run of the spec-side decomposition has positive length and ends
within the profile. -/
theorem specRuns_bounds (t : List ℚ) (p : ℕ × ℕ) (hp : p ∈ specRuns t) :
    1 ≤ p.2 ∧ p.1 + p.2 ≤ t.length := by
  cases t with
  | nil => simp [specRuns] at hp
  | cons x xs =>
    have := runsAux_bounds xs x 0 1 p hp (by omega)
    simp only [List.length_cons]
    omega

theorem runsAux_ne_nil : ∀ (xs : List ℚ) (v : ℚ) (s len : ℕ),
    runsAux v s len xs ≠ []
  | [], v, s, len => by simp [runsAux]
  | x :: xs, v, s, len => by
    by_cases hx : x = v
    · rw [runsAux, if_pos hx]
      exact runsAux_ne_nil xs v s (len + 1)
    · rw [runsAux, if_neg hx]
      simp

theorem specRuns_ne_nil (t : List ℚ) (ht : t ≠ []) : specRuns t ≠ [] := by
  cases t with
  | nil => exact absurd rfl ht
  | cons x xs => exact runsAux_ne_nil xs x 0 1

theorem getD_map_fst (l : List (ℕ × ℕ)) (j : ℕ) (h : j < l.length) :
    (l.map Prod.fst).getD j 0 = (l.getD j (0, 0)).1 := by
  induction l generalizing j with
  | nil => simp at h
  | cons p l ih =>
    cases j with
    | zero => simp
    | succ j =>
      simp only [List.map_cons, List.getD_cons_succ]
      exact ih j (by simpa [Nat.succ_lt_succ_iff] using h)

theorem getD_map_snd (l : List (ℕ × ℕ)) (j : ℕ) (h : j < l.length) :
    (l.map Prod.snd).getD j 0 = (l.getD j (0, 0)).2 := by
  induction l generalizing j with
  | nil => simp at h
  | cons p l ih =>
    cases j with
    | zero => simp
    | succ j =>
      simp only [List.map_cons, List.getD_cons_succ]
      exact ih j (by simpa [Nat.succ_lt_succ_iff] using h)

/-- The floor of `s + l * 0.5` over exact arithmetic is `s + l / 2` in natural
division: the two midpoint forms of the spec agree. -/
theorem floor_midpoint (s l : ℕ) :
    (⌊(s : ℚ) + (l : ℚ) * (1 / 2)⌋).toNat = s + l / 2 := by
  rcases Nat.even_or_odd l with ⟨m, hm⟩ | ⟨m, hm⟩
  · subst hm
    have hq : (s : ℚ) + ((m + m : ℕ) : ℚ) * (1 / 2) = ((s + m : ℕ) : ℚ) := by
      push_cast; ring
    rw [hq, Int.floor_natCast]
    simp only [Int.toNat_natCast]
    omega
  · subst hm
    have hfl : ⌊(s : ℚ) + ((2 * m + 1 : ℕ) : ℚ) * (1 / 2)⌋ = ((s + m : ℕ) : ℤ) := by
      rw [Int.floor_eq_iff]
      constructor
      · push_cast; linarith
      · push_cast; linarith
    rw [hfl]
    simp only [Int.toNat_natCast]
    omega

/-- Core behaviour of `find_landing_site` on a non-empty profile: there is an
index of the run decomposition pointing at a maximal-length run with all
earlier runs strictly shorter (the stable argmax), and the function returns
that run's floor midpoint exactly when its length exceeds 40, `none`
otherwise. -/
theorem find_site_sel (t : List ℚ) (ht : t ≠ []) :
    ∃ i, i < (specRuns t).length ∧
      (∀ j, j < (specRuns t).length →
        ((specRuns t).getD j (0, 0)).2 ≤ ((specRuns t).getD i (0, 0)).2) ∧
      (∀ j, j < i → ((specRuns t).getD j (0, 0)).2 < ((specRuns t).getD i (0, 0)).2) ∧
      find_landing_site t =
        .ok (if 40 < ((specRuns t).getD i (0, 0)).2
             then some (((specRuns t).getD i (0, 0)).1 + ((specRuns t).getD i (0, 0)).2 / 2)
             else none) := by
  obtain ⟨x, xs, rfl⟩ := List.exists_cons_of_ne_nil ht
  have hlen_eq : run_lengths (x :: xs) = (specRuns (x :: xs)).map Prod.snd :=
    run_lengths_eq_map _
  have hst_eq : run_starts (x :: xs) = (specRuns (x :: xs)).map Prod.fst :=
    run_starts_eq_map _
  have hLlen : (run_lengths (x :: xs)).length = (specRuns (x :: xs)).length := by
    rw [hlen_eq, List.length_map]
  have hrne : specRuns (x :: xs) ≠ [] := specRuns_ne_nil _ (by simp)
  have hLne : run_lengths (x :: xs) ≠ [] := by
    intro h
    apply hrne
    have := hLlen
    rw [h] at this
    exact List.length_eq_zero.mp this.symm
  obtain ⟨a, as, hL⟩ := List.exists_cons_of_ne_nil hLne
  have hspec := np_argmax_spec a as
  rw [← hL] at hspec
  set i := np_argmax (run_lengths (x :: xs)) with hidef
  have hi : i < (specRuns (x :: xs)).length := by rw [← hLlen]; exact hspec.1
  have hgetL : ∀ j, j < (specRuns (x :: xs)).length →
      (run_lengths (x :: xs)).getD j 0 = ((specRuns (x :: xs)).getD j (0, 0)).2 := by
    intro j hj
    rw [hlen_eq]
    exact getD_map_snd _ j hj
  have hgetS : (run_starts (x :: xs)).getD i 0 = ((specRuns (x :: xs)).getD i (0, 0)).1 := by
    rw [hst_eq]
    exact getD_map_fst _ i hi
  refine ⟨i, hi, ?_, ?_, ?_⟩
  · intro j hj
    have := hspec.2.1 j (by rw [hLlen]; exact hj)
    rwa [hgetL j hj, hgetL i hi] at this
  · intro j hj
    have := hspec.2.2 j hj
    rwa [hgetL j (lt_trans hj hi), hgetL i hi] at this
  · have hcast : (((run_starts (x :: xs)).getD i 0 + (run_lengths (x :: xs)).getD i 0 : ℕ) : ℚ)
        - (((run_starts (x :: xs)).getD i 0 : ℕ) : ℚ)
        = (((run_lengths (x :: xs)).getD i 0 : ℕ) : ℚ) := by
      push_cast; ring
    simp only [find_landing_site, Nat.add_sub_cancel_left, hcast, floor_midpoint]
    rw [hgetS, hgetL i hi]
    split_ifs <;> rfl

/-- An in-range `getD` is a member of the list. -/
theorem getD_mem (l : List (ℕ × ℕ)) (i : ℕ) (h : i < l.length) :
    l.getD i (0, 0) ∈ l := by
  induction l generalizing i with
  | nil => simp at h
  | cons p l ih =>
    cases i with
    | zero => simp
    | succ i =>
      simp only [List.getD_cons_succ]
      exact List.mem_cons_of_mem _ (ih i (by simpa [Nat.succ_lt_succ_iff] using h))

/-- A landing site returned by `find_landing_site` is a valid index into the
terrain it was computed from. -/
theorem find_site_lt (t : List ℚ) (loc : ℕ)
    (h : find_landing_site t = .ok (some loc)) : loc < t.length := by
  have ht : t ≠ [] := by
    rintro rfl
    rw [find_landing_site] at h
    cases h
  obtain ⟨i, hi, _, _, hfind⟩ := find_site_sel t ht
  rw [hfind] at h
  by_cases h40 : 40 < ((specRuns t).getD i (0, 0)).2
  · rw [if_pos h40] at h
    simp only [Except.ok.injEq, Option.some.injEq] at h
    have hmem : (specRuns t).getD i (0, 0) ∈ specRuns t := getD_mem _ i hi
    obtain ⟨h1, h2⟩ := specRuns_bounds t _ hmem
    omega
  · rw [if_neg h40] at h
    simp at h

/-- Claim C9: for every current heading, target heading and positive
tolerance, the rotation command is `none` iff `|current - target| <
tolerance` (strict), is `left` when out of tolerance with `current < target`,
and is `right` otherwise; concretely `rotate 0 10 0.5 = left`,
`rotate 10 0 0.5 = right` and `rotate 0.2 0 0.5 = none`. -/
theorem claim_C9 (current target tolerance : ℚ) (htol : 0 < tolerance) :
    ((rotate current target tolerance = none ↔ |current - target| < tolerance) ∧
     (¬ |current - target| < tolerance → current < target →
        rotate current target tolerance = some .left) ∧
     (¬ |current - target| < tolerance → ¬ current < target →
        rotate current target tolerance = some .right)) ∧
    (rotate 0 10 0.5 = some .left ∧ rotate 10 0 0.5 = some .right ∧
     rotate 0.2 0 0.5 = none) := by
  constructor
  · refine ⟨?_, ?_, ?_⟩
    · unfold rotate
      split_ifs with h1 h2 <;> simp [h1]
    · intro h1 h2
      unfold rotate
      rw [if_neg h1, if_pos h2]
    · intro h1 h2
      unfold rotate
      rw [if_neg h1, if_neg h2]
  · refine ⟨?_, ?_, ?_⟩ <;>
      norm_num [rotate, abs_of_pos, abs_of_neg, abs_of_nonneg, abs_of_nonpos]

/-- Claim C9 witness: the theorem applied at the default tolerance `0.5`. -/
theorem claim_C9_witness :
    (0 : ℚ) < 1 / 2 ∧
    (((rotate 3 7 (1 / 2) = none ↔ |(3 : ℚ) - 7| < 1 / 2) ∧
      (¬ |(3 : ℚ) - 7| < 1 / 2 → (3 : ℚ) < 7 → rotate 3 7 (1 / 2) = some .left) ∧
      (¬ |(3 : ℚ) - 7| < 1 / 2 → ¬ (3 : ℚ) < 7 → rotate 3 7 (1 / 2) = some .right)) ∧
     (rotate 0 10 0.5 = some .left ∧ rotate 10 0 0.5 = some .right ∧
      rotate 0.2 0 0.5 = none)) :=
  ⟨by norm_num, claim_C9 3 7 (1 / 2) (by norm_num)⟩

/-- Claim C1 counterexample: with unit cosine, thrust 2 and gravity magnitude
1 (so `a - g = 1`), at `h0 = 0`, `v0 = 2` the code computes stop height `-4`
while the spec's standard formula gives `-2`. -/
theorem claim_C1_cex :
    stop_at_if_slow_down cfgT2 0 2 0 = .fin (-4) ∧
    spec_stop_height cfgT2 0 2 0 = -2 ∧
    stop_at_if_slow_down cfgT2 0 2 0 ≠ .fin (spec_stop_height cfgT2 0 2 0) := by
  refine ⟨?_, ?_, ?_⟩ <;> norm_num [stop_at_if_slow_down, spec_stop_height, cfgT2]

/-- Claim C1 (amended): whenever the net acceleration `a - g` is nonzero,
`stop_at_if_slow_down` computes `h0 - v0^2 / (a - g)` — i.e. `h0` minus twice
the standard stopping distance, equivalently `2 * h_spec - h0` where `h_spec`
is the spec's standard formula — rather than the standard formula itself. -/
theorem claim_C1 (cfg : Cfg) (h0 v0 heading : ℚ)
    (h : cfg.cosdeg heading * cfg.thrust - |cfg.gy| ≠ 0) :
    stop_at_if_slow_down cfg h0 v0 heading =
      .fin (2 * spec_stop_height cfg h0 v0 heading - h0) := by
  simp only [stop_at_if_slow_down, spec_stop_height]
  rw [if_neg h]
  congr 1
  field_simp
  ring

/-- Claim C1 witness: the amended theorem applied at the counterexample
configuration. -/
theorem claim_C1_witness :
    (cfgT2.cosdeg 0 * cfgT2.thrust - |cfgT2.gy| ≠ 0) ∧
    stop_at_if_slow_down cfgT2 0 2 0 = .fin (2 * spec_stop_height cfgT2 0 2 0 - 0) :=
  ⟨by norm_num [cfgT2], claim_C1 cfgT2 0 2 0 (by norm_num [cfgT2])⟩

/-- Claim C2: when the vertical thrust component exactly equals the gravity
magnitude, the stopping-height computation does not propagate a division
error: it yields the infinite-descent value `-inf`, which compares below
every hover height, and in the search state this makes the controller fire
the main engine while descending. -/
theorem claim_C2 (cfg : Cfg) (h0 v0 heading : ℚ)
    (ha : cfg.cosdeg heading * cfg.thrust = |cfg.gy|) (hv : v0 ≠ 0) :
    stop_at_if_slow_down cfg h0 v0 heading = .neginf ∧
    (∀ hover : ℚ, FVal.ltq (stop_at_if_slow_down cfg h0 v0 heading) hover = true) ∧
    (∀ (me : PlayerInfo) (terrain : List ℚ) (out : Instructions) (b' : BotState),
      find_landing_site terrain = .ok none →
      me.position.2 = h0 → me.velocity.2 = v0 → me.heading = heading → v0 < 0 →
      stepBot cfg ⟨none, .waitForLandingSite⟩ me terrain = .ok (out, b') →
      out.main = true) := by
  have hstop : stop_at_if_slow_down cfg h0 v0 heading = .neginf := by
    simp only [stop_at_if_slow_down]
    rw [if_pos (by rw [ha]; ring), if_neg hv]
  refine ⟨hstop, ?_, ?_⟩
  · intro hover
    rw [hstop]
    rfl
  · intro me terrain out b' hfind hpos hvel hhead hneg hstep
    simp only [stepBot, wait_for_landing_site, hfind] at hstep
    rw [hpos, hvel, hhead, hstop] at hstep
    simp only [FVal.ltq, Bool.true_and, Except.ok.injEq, Prod.mk.injEq] at hstep
    obtain ⟨h1, _⟩ := hstep
    rw [← h1]
    simp [hneg]

/-- Claim C2 witness: unit thrust at heading 0 exactly cancels unit gravity;
over the flat terrain `[0]` with no site found, the hovering craft descending
at speed 1 fires its main engine. -/
theorem claim_C2_witness :
    (cfgU.cosdeg 0 * cfgU.thrust = |cfgU.gy|) ∧ ((-1 : ℚ) ≠ 0) ∧
    (stop_at_if_slow_down cfgU 100 (-1) 0 = .neginf ∧
     (∀ hover : ℚ, FVal.ltq (stop_at_if_slow_down cfgU 100 (-1) 0) hover = true) ∧
     (∀ (me : PlayerInfo) (terrain : List ℚ) (out : Instructions) (b' : BotState),
       find_landing_site terrain = .ok none →
       me.position.2 = 100 → me.velocity.2 = -1 → me.heading = 0 → (-1 : ℚ) < 0 →
       stepBot cfgU ⟨none, .waitForLandingSite⟩ me terrain = .ok (out, b') →
       out.main = true)) :=
  ⟨by norm_num [cfgU], by norm_num,
   claim_C2 cfgU 100 (-1) 0 (by norm_num [cfgU]) (by norm_num)⟩

/-- Claim C3 counterexample: on a zero-length terrain `find_landing_site` does
not return null — the assignment `loc_run_start[0] = True` raises an
IndexError, modelled as an error result. -/
theorem claim_C3_cex :
    find_landing_site ([] : List ℚ) = .error indexError0 ∧
    find_landing_site ([] : List ℚ) ≠ .ok none :=
  ⟨rfl, fun h => Except.noConfusion h⟩

/-- Claim C3 (amended): length-1 terrain is handled without raising — the
single run covers the whole profile and null is returned since its length 1
does not exceed the threshold — but length-0 terrain raises an index error
instead of returning null. -/
theorem claim_C3 (q : ℚ) :
    find_landing_site [q] = .ok none ∧
    find_landing_site ([] : List ℚ) = .error indexError0 :=
  ⟨rfl, rfl⟩

/-- Claim C6: on every non-empty terrain, `find_landing_site` selects the
maximal-length run of consecutive equal heights, ties broken in favour of the
first run, and returns its floor midpoint `start + length / 2` (the truncated
`start + length * 0.5` of the code equals this) exactly when the length
exceeds 40, otherwise null. -/
theorem claim_C6 (t : List ℚ) (ht : t ≠ []) :
    ∃ i, i < (specRuns t).length ∧
      (∀ j, j < (specRuns t).length →
        ((specRuns t).getD j (0, 0)).2 ≤ ((specRuns t).getD i (0, 0)).2) ∧
      (∀ j, j < i → ((specRuns t).getD j (0, 0)).2 < ((specRuns t).getD i (0, 0)).2) ∧
      find_landing_site t =
        .ok (if 40 < ((specRuns t).getD i (0, 0)).2
             then some (((specRuns t).getD i (0, 0)).1 + ((specRuns t).getD i (0, 0)).2 / 2)
             else none) :=
  find_site_sel t ht

/-- Claim C6 witness: the theorem applied to the singleton profile `[5]`. -/
theorem claim_C6_witness :
    ([(5 : ℚ)] ≠ ([] : List ℚ)) ∧
    ∃ i, i < (specRuns [(5 : ℚ)]).length ∧
      (∀ j, j < (specRuns [(5 : ℚ)]).length →
        ((specRuns [(5 : ℚ)]).getD j (0, 0)).2 ≤ ((specRuns [(5 : ℚ)]).getD i (0, 0)).2) ∧
      (∀ j, j < i →
        ((specRuns [(5 : ℚ)]).getD j (0, 0)).2 < ((specRuns [(5 : ℚ)]).getD i (0, 0)).2) ∧
      find_landing_site [(5 : ℚ)] =
        .ok (if 40 < ((specRuns [(5 : ℚ)]).getD i (0, 0)).2
             then some (((specRuns [(5 : ℚ)]).getD i (0, 0)).1 +
               ((specRuns [(5 : ℚ)]).getD i (0, 0)).2 / 2)
             else none) :=
  ⟨by simp, claim_C6 [(5 : ℚ)] (by simp)⟩

/-- Claim C5: whatever the controller state and the per-tick input, a
successful tick never sets both rotation flags. -/
theorem claim_C5 (cfg : Cfg) (b : BotState) (me : PlayerInfo) (terrain : List ℚ)
    (out : Instructions) (b' : BotState)
    (h : stepBot cfg b me terrain = .ok (out, b')) :
    ¬(out.left = true ∧ out.right = true) := by
  obtain ⟨tsite, st⟩ := b
  cases st
  case initialManoeuvre =>
    simp only [stepBot, initial_manoeuvre] at h
    by_cases hv : me.velocity.1 > 10
    · rw [if_pos hv] at h
      simp only [Except.ok.injEq, Prod.mk.injEq] at h
      rw [← h.1]
      simp
    · rw [if_neg hv] at h
      cases hr : rotate me.heading 0 (1 / 2) with
      | none =>
        rw [hr] at h
        simp only [Except.ok.injEq, Prod.mk.injEq] at h
        rw [← h.1]
        simp
      | some c =>
        cases c <;>
        · rw [hr] at h
          simp only [Except.ok.injEq, Prod.mk.injEq] at h
          rw [← h.1]
          simp
  case waitForLandingSite =>
    cases tsite with
    | some t =>
      simp only [stepBot, wait_for_landing_site, Except.ok.injEq, Prod.mk.injEq] at h
      rw [← h.1]
      simp
    | none =>
      cases hf : find_landing_site terrain with
      | error e =>
        simp only [stepBot, wait_for_landing_site, hf] at h
        exact Except.noConfusion h
      | ok o =>
        cases o with
        | some loc =>
          simp only [stepBot, wait_for_landing_site, hf, Except.ok.injEq,
            Prod.mk.injEq] at h
          rw [← h.1]
          simp
        | none =>
          simp only [stepBot, wait_for_landing_site, hf, Except.ok.injEq,
            Prod.mk.injEq] at h
          rw [← h.1]
          simp
  case alignWithLandingSite =>
    by_cases hemp : terrain = []
    · simp only [stepBot, align_with_landing_site, if_pos hemp] at h
      exact Except.noConfusion h
    · cases tsite with
      | none =>
        simp only [stepBot, align_with_landing_site, if_neg hemp] at h
        exact Except.noConfusion h
      | some ts =>
        simp only [stepBot, align_with_landing_site, if_neg hemp] at h
        by_cases hd : |(ts : ℚ) - me.position.1| < 50
        · rw [if_pos hd] at h
          simp only [Except.ok.injEq, Prod.mk.injEq] at h
          rw [← h.1]
          exact lrOf_not_both _
        · rw [if_neg hd] at h
          simp only [Except.ok.injEq, Prod.mk.injEq] at h
          rw [← h.1]
          simp
  case land =>
    cases tsite with
    | none =>
      simp only [stepBot, land] at h
      exact Except.noConfusion h
    | some ts =>
      by_cases hts : ts < terrain.length
      · simp only [stepBot, land, if_pos hts] at h
        by_cases hd : |(ts : ℚ) - me.position.1| < 50
        · rw [if_pos hd] at h
          simp only [Except.ok.injEq, Prod.mk.injEq] at h
          rw [← h.1]
          exact lrOf_not_both _
        · rw [if_neg hd] at h
          simp only [Except.ok.injEq, Prod.mk.injEq] at h
          rw [← h.1]
          simp
      · simp only [stepBot, land, if_neg hts] at h
        exact Except.noConfusion h

/-- Claim C5 witness: a concrete tick (initial state, heading 10) rotating
right, at which the theorem yields the exclusivity of the two flags. -/
theorem claim_C5_witness :
    stepBot cfgU ⟨none, .initialManoeuvre⟩ meTilt [0] =
      .ok (⟨false, false, true⟩, ⟨none, .initialManoeuvre⟩) ∧
    ¬((Instructions.mk false false true).left = true ∧
      (Instructions.mk false false true).right = true) := by
  have hstep : stepBot cfgU ⟨none, .initialManoeuvre⟩ meTilt [0] =
      .ok (⟨false, false, true⟩, ⟨none, .initialManoeuvre⟩) := by
    simp only [stepBot, initial_manoeuvre, rotate, meTilt, cfgU]
    norm_num
  exact ⟨hstep, claim_C5 cfgU ⟨none, .initialManoeuvre⟩ meTilt [0] _ _ hstep⟩

/-- Claim C7 counterexample: over terrain `[0]` with no site found, the craft
at height 100 descending at speed 1 has predicted stop height `299/3`, which
exceeds the hover height 50 while the vertical velocity is negative — yet the
engine stays off (the code fires when the stop height is BELOW the hover
height, not when it exceeds it). -/
theorem claim_C7_cex :
    stepBot cfgT4 ⟨none, .waitForLandingSite⟩ meHover [0] =
      .ok (⟨false, false, false⟩, ⟨none, .waitForLandingSite⟩) ∧
    stop_at_if_slow_down cfgT4 meHover.position.2 meHover.velocity.2 meHover.heading =
      .fin (299 / 3) ∧
    nmax [(0 : ℚ)] + 50 < 299 / 3 ∧
    meHover.velocity.2 < 0 := by
  refine ⟨?_, ?_, ?_, ?_⟩
  · simp only [stepBot, wait_for_landing_site, find_landing_site, run_starts, run_lengths,
      loc_run_start, pairNe, trueIdxs, diffs, np_argmax, np_argmaxAux, stop_at_if_slow_down,
      nmax, meHover, cfgT4, FVal.ltq]
    norm_num
  · norm_num [stop_at_if_slow_down, meHover, cfgT4]
  · norm_num [nmax]
  · norm_num [meHover]

/-- Claim C7 (amended): in the search state with no site cached and none
found, the main engine fires exactly when the predicted stop height is BELOW
the safe hover height (terrain maximum plus 50) while the vertical velocity
is negative; no rotation is issued and the state loops. -/
theorem claim_C7 (cfg : Cfg) (me : PlayerInfo) (terrain : List ℚ)
    (out : Instructions) (b' : BotState)
    (hfind : find_landing_site terrain = .ok none)
    (hstep : stepBot cfg ⟨none, .waitForLandingSite⟩ me terrain = .ok (out, b')) :
    out.main = (FVal.ltq (stop_at_if_slow_down cfg me.position.2 me.velocity.2 me.heading)
                  (nmax terrain + 50) && decide (me.velocity.2 < 0)) ∧
    out.left = false ∧ out.right = false ∧ b' = ⟨none, .waitForLandingSite⟩ := by
  simp only [stepBot, wait_for_landing_site, hfind, Except.ok.injEq, Prod.mk.injEq] at hstep
  rw [← hstep.1, ← hstep.2]
  exact ⟨rfl, rfl, rfl, rfl⟩

/-- Claim C7 witness: the theorem at a tick where the predicted stop height
(`-inf`, thrust cancelling gravity) is below the hover height and the craft
descends, so the engine fires. -/
theorem claim_C7_witness :
    find_landing_site [(0 : ℚ)] = .ok none ∧
    stepBot cfgU ⟨none, .waitForLandingSite⟩ meHover [(0 : ℚ)] =
      .ok (⟨true, false, false⟩, ⟨none, .waitForLandingSite⟩) ∧
    ((Instructions.mk true false false).main =
       (FVal.ltq (stop_at_if_slow_down cfgU meHover.position.2 meHover.velocity.2
           meHover.heading) (nmax [(0 : ℚ)] + 50) && decide (meHover.velocity.2 < 0)) ∧
     (Instructions.mk true false false).left = false ∧
     (Instructions.mk true false false).right = false ∧
     (⟨none, .waitForLandingSite⟩ : BotState) = ⟨none, .waitForLandingSite⟩) := by
  have hfind : find_landing_site [(0 : ℚ)] = .ok none := rfl
  have hstep : stepBot cfgU ⟨none, .waitForLandingSite⟩ meHover [(0 : ℚ)] =
      .ok (⟨true, false, false⟩, ⟨none, .waitForLandingSite⟩) := by
    simp only [stepBot, wait_for_landing_site, find_landing_site, run_starts, run_lengths,
      loc_run_start, pairNe, trueIdxs, diffs, np_argmax, np_argmaxAux, stop_at_if_slow_down,
      nmax, meHover, cfgU, FVal.ltq]
    norm_num
  exact ⟨hfind, hstep, claim_C7 cfgU meHover [(0 : ℚ)] _ _ hfind hstep⟩

/-- Claim C8 counterexample: with horizontal velocity `-20` — a horizontal
speed of 20, above the threshold — and heading already 0, the initial
manoeuvre neither fires the main engine nor withholds the transition: it
advances to the search state with all flags off. -/
theorem claim_C8_cex :
    stepBot cfgU ⟨none, .initialManoeuvre⟩ meFast [0] =
      .ok (⟨false, false, false⟩, ⟨none, .waitForLandingSite⟩) ∧
    |meFast.velocity.1| > 10 := by
  constructor
  · simp only [stepBot, initial_manoeuvre, rotate, meFast, cfgU]
    norm_num
  · norm_num [meFast]

/-- Claim C8 (amended): the initial-manoeuvre trigger is the signed
horizontal velocity, not the speed: while `vx > 10` the controller fires the
main engine and issues no rotation; otherwise it never fires, the rotation
flags follow `rotate(heading, 0)`, and it advances to the search state
exactly when `vx` does not exceed 10 and the rotation command is none. -/
theorem claim_C8 (cfg : Cfg) (b : BotState) (me : PlayerInfo) (terrain : List ℚ)
    (hst : b.state = .initialManoeuvre) :
    ∃ out b', stepBot cfg b me terrain = .ok (out, b') ∧
      (me.velocity.1 > 10 → out = ⟨true, false, false⟩ ∧
        b' = ⟨b.target_site, .initialManoeuvre⟩) ∧
      (¬ me.velocity.1 > 10 →
        out.main = false ∧
        (out.left, out.right) = lrOf (rotate me.heading 0 (1 / 2)) ∧
        b' = ⟨b.target_site,
          if rotate me.heading 0 (1 / 2) = none then .waitForLandingSite
          else .initialManoeuvre⟩) := by
  obtain ⟨tsite, st⟩ := b
  have hst' : st = .initialManoeuvre := hst
  subst hst'
  by_cases hv : me.velocity.1 > 10
  · refine ⟨⟨true, false, false⟩, ⟨tsite, .initialManoeuvre⟩, ?_, ?_, ?_⟩
    · simp only [stepBot, initial_manoeuvre, if_pos hv]
    · intro _
      exact ⟨rfl, rfl⟩
    · intro hc
      exact absurd hv hc
  · cases hr : rotate me.heading 0 (1 / 2) with
    | none =>
      refine ⟨⟨false, false, false⟩, ⟨tsite, .waitForLandingSite⟩, ?_, ?_, ?_⟩
      · simp only [stepBot, initial_manoeuvre, if_neg hv, hr]
      · intro hc
        exact absurd hc hv
      · intro _
        exact ⟨rfl, rfl, by simp⟩
    | some c =>
      cases c with
      | left =>
        refine ⟨⟨false, true, false⟩, ⟨tsite, .initialManoeuvre⟩, ?_, ?_, ?_⟩
        · simp only [stepBot, initial_manoeuvre, if_neg hv, hr]
        · intro hc
          exact absurd hc hv
        · intro _
          exact ⟨rfl, rfl, by simp⟩
      | right =>
        refine ⟨⟨false, false, true⟩, ⟨tsite, .initialManoeuvre⟩, ?_, ?_, ?_⟩
        · simp only [stepBot, initial_manoeuvre, if_neg hv, hr]
        · intro hc
          exact absurd hc hv
        · intro _
          exact ⟨rfl, rfl, by simp⟩

/-- Claim C8 witness: the theorem at a tick with heading 10 and no horizontal
speed, at which the craft rotates right and stays in the initial state. -/
theorem claim_C8_witness :
    ((⟨none, .initialManoeuvre⟩ : BotState).state = .initialManoeuvre) ∧
    ∃ out b', stepBot cfgU ⟨none, .initialManoeuvre⟩ meTilt [0] = .ok (out, b') ∧
      (meTilt.velocity.1 > 10 → out = ⟨true, false, false⟩ ∧
        b' = ⟨(⟨none, .initialManoeuvre⟩ : BotState).target_site, .initialManoeuvre⟩) ∧
      (¬ meTilt.velocity.1 > 10 →
        out.main = false ∧
        (out.left, out.right) = lrOf (rotate meTilt.heading 0 (1 / 2)) ∧
        b' = ⟨(⟨none, .initialManoeuvre⟩ : BotState).target_site,
          if rotate meTilt.heading 0 (1 / 2) = none then .waitForLandingSite
          else .initialManoeuvre⟩) :=
  ⟨rfl, claim_C8 cfgU ⟨none, .initialManoeuvre⟩ meTilt [0] rfl⟩

/-- Claim C4 counterexample: in the alignment state over terrain `[0]` the
firing condition holds — predicted stop height `26/3` is below the hover
height 50 and the craft descends — yet the tick returns `main = false`: the
leftward-bank branch (`vx = -1/5 < -0.1`) assigns `instructions.main = False`
and clears the already-set flag. -/
theorem claim_C4_cex :
    stepBot cfgT4 ⟨some 0, .alignWithLandingSite⟩ meDrift [0] =
      .ok (⟨false, false, true⟩, ⟨some 0, .land⟩) ∧
    FVal.ltq (stop_at_if_slow_down cfgT4 meDrift.position.2 meDrift.velocity.2
      meDrift.heading) (nmax [(0 : ℚ)] + 50) = true ∧
    meDrift.velocity.2 < 0 := by
  refine ⟨?_, ?_, ?_⟩
  · simp only [stepBot, align_with_landing_site, stop_at_if_slow_down, nmax, rotate, lrOf,
      meDrift, cfgT4, FVal.ltq]
    norm_num [abs_of_pos, abs_of_nonneg]
  · norm_num [stop_at_if_slow_down, nmax, meDrift, cfgT4, FVal.ltq]
  · norm_num [meDrift]

/-- Claim C4 (amended): main-engine conditions combine as cumulative
or-triggers except for the leftward-bank branch of the alignment and landing
states (within 50 of the site with `vx < -0.1`), which overrides previously
satisfied conditions by setting main to false; every condition evaluated
after that branch still forces the engine on for the tick — the
`|vx| < 0.5 ∧ vy < -3` re-fire in alignment, and the three final braking
triggers in the landing state. -/
theorem claim_C4 (cfg : Cfg) (me : PlayerInfo) (terrain : List ℚ) (ts : ℕ)
    (out : Instructions) (b' : BotState) :
    (stepBot cfg ⟨some ts, .alignWithLandingSite⟩ me terrain = .ok (out, b') →
      |(ts : ℚ) - me.position.1| < 50 → |me.velocity.1| < 0.5 → me.velocity.2 < -3 →
      out.main = true) ∧
    (stepBot cfg ⟨some ts, .land⟩ me terrain = .ok (out, b') →
      (FVal.ltq (stop_at_if_slow_down cfg me.position.2 me.velocity.2 me.heading)
         (terrain.getD ts 0 - 60) = true ∨
       |me.position.2 - terrain.getD ts 0| < 15 ∨ me.velocity.2 < -5) →
      out.main = true) ∧
    (stepBot cfg ⟨some ts, .alignWithLandingSite⟩ me terrain = .ok (out, b') →
      |(ts : ℚ) - me.position.1| < 50 → me.velocity.1 < -0.1 →
      ¬(|me.velocity.1| < 0.5 ∧ me.velocity.2 < -3) →
      out.main = false) := by
  refine ⟨?_, ?_, ?_⟩
  · intro h hd h05 h3
    by_cases hemp : terrain = []
    · simp only [stepBot, align_with_landing_site, if_pos hemp] at h
      exact Except.noConfusion h
    · simp only [stepBot, align_with_landing_site, if_neg hemp] at h
      rw [if_pos hd, if_pos (⟨h05, h3⟩ : _ ∧ _)] at h
      simp only [Except.ok.injEq, Prod.mk.injEq] at h
      rw [← h.1]
  · intro h hcond
    by_cases hts : ts < terrain.length
    · simp only [stepBot, land, if_pos hts, Except.ok.injEq, Prod.mk.injEq] at h
      rw [← h.1]
      show (if me.velocity.2 < -5 then true
            else if |me.position.2 - terrain.getD ts 0| < 15 then true
            else if FVal.ltq (stop_at_if_slow_down cfg me.position.2 me.velocity.2
                me.heading) (terrain.getD ts 0 - 60) = true then true
            else _) = true
      by_cases h5 : me.velocity.2 < -5
      · rw [if_pos h5]
      · rw [if_neg h5]
        by_cases h15 : |me.position.2 - terrain.getD ts 0| < 15
        · rw [if_pos h15]
        · rw [if_neg h15]
          by_cases hlt : FVal.ltq (stop_at_if_slow_down cfg me.position.2 me.velocity.2
              me.heading) (terrain.getD ts 0 - 60) = true
          · rw [if_pos hlt]
          · rcases hcond with hc | hc | hc
            · exact absurd hc hlt
            · exact absurd hc h15
            · exact absurd hc h5
    · simp only [stepBot, land, if_neg hts] at h
      exact Except.noConfusion h
  · intro h hd hvx hnot
    by_cases hemp : terrain = []
    · simp only [stepBot, align_with_landing_site, if_pos hemp] at h
      exact Except.noConfusion h
    · simp only [stepBot, align_with_landing_site, if_neg hemp] at h
      have hn1 : ¬(|me.velocity.1| ≤ 0.1) := by
        rw [abs_of_neg (by linarith : me.velocity.1 < 0)]
        linarith
      have hn2 : ¬(me.velocity.1 > 0.1) := by linarith
      rw [if_pos hd, if_neg hnot, if_neg hn1, if_neg hn2] at h
      simp only [Except.ok.injEq, Prod.mk.injEq] at h
      rw [← h.1]

/-- Claim C4 witness: in the landing state just above the site, descending at
speed 6, two of the final braking triggers hold and the theorem yields a
fired main engine. -/
theorem claim_C4_witness :
    stepBot cfgT4 ⟨some 0, .land⟩ meDrop [0] =
      .ok (⟨true, false, false⟩, ⟨some 0, .land⟩) ∧
    (Instructions.mk true false false).main = true := by
  have hstep : stepBot cfgT4 ⟨some 0, .land⟩ meDrop [0] =
      .ok (⟨true, false, false⟩, ⟨some 0, .land⟩) := by
    simp only [stepBot, land, stop_at_if_slow_down, rotate, lrOf, meDrop, cfgT4, FVal.ltq]
    norm_num [abs_of_pos, abs_of_nonneg]
  refine ⟨hstep, ?_⟩
  exact (claim_C4 cfgT4 meDrop [0] 0 ⟨true, false, false⟩ ⟨some 0, .land⟩).2.1 hstep
    (Or.inr (Or.inl (by norm_num [meDrop, List.getD_cons_zero])))

/-- Claim C10: the landing-site invariant — every cached site index lies
within the terrain bounds and the alignment/landing states always hold a
cached site — holds for the freshly constructed bot, is preserved by every
successful tick over a fixed-length terrain, and under it the alignment and
landing handlers never fail: the offset `target_site - x` and the lookup
`terrain[target_site]` operate on a present, in-range index. -/
theorem claim_C10 (cfg : Cfg) (b : BotState) (me : PlayerInfo) (terrain : List ℚ)
    (hinv : SiteInv b terrain.length) :
    SiteInv initBot terrain.length ∧
    (∀ out b', stepBot cfg b me terrain = .ok (out, b') → SiteInv b' terrain.length) ∧
    ((b.state = .alignWithLandingSite ∨ b.state = .land) →
      ∃ p, stepBot cfg b me terrain = .ok p) := by
  refine ⟨⟨fun ts h => Option.noConfusion h, fun h => by
    rcases h with h | h <;> exact StateTag.noConfusion h⟩, ?_, ?_⟩
  · intro out b' h
    obtain ⟨tsite, st⟩ := b
    cases st
    case initialManoeuvre =>
      simp only [stepBot, initial_manoeuvre] at h
      by_cases hv : me.velocity.1 > 10
      · rw [if_pos hv] at h
        simp only [Except.ok.injEq, Prod.mk.injEq] at h
        rw [← h.2]
        exact ⟨hinv.1, fun hc => by
          rcases hc with hc | hc <;> exact StateTag.noConfusion hc⟩
      · rw [if_neg hv] at h
        cases hr : rotate me.heading 0 (1 / 2) with
        | none =>
          rw [hr] at h
          simp only [Except.ok.injEq, Prod.mk.injEq] at h
          rw [← h.2]
          exact ⟨hinv.1, fun hc => by
            rcases hc with hc | hc <;> exact StateTag.noConfusion hc⟩
        | some c =>
          cases c <;>
          · rw [hr] at h
            simp only [Except.ok.injEq, Prod.mk.injEq] at h
            rw [← h.2]
            exact ⟨hinv.1, fun hc => by
              rcases hc with hc | hc <;> exact StateTag.noConfusion hc⟩
    case waitForLandingSite =>
      cases tsite with
      | some t =>
        simp only [stepBot, wait_for_landing_site, Except.ok.injEq, Prod.mk.injEq] at h
        rw [← h.2]
        refine ⟨?_, fun _ => by simp⟩
        intro ts' hts'
        have hb := hinv.1 t rfl
        simp only [Option.some.injEq] at hts'
        omega
      | none =>
        cases hf : find_landing_site terrain with
        | error e =>
          simp only [stepBot, wait_for_landing_site, hf] at h
          exact Except.noConfusion h
        | ok o =>
          cases o with
          | none =>
            simp only [stepBot, wait_for_landing_site, hf, Except.ok.injEq,
              Prod.mk.injEq] at h
            rw [← h.2]
            exact ⟨fun ts' hts' => Option.noConfusion hts', fun hc => by
              rcases hc with hc | hc <;> exact StateTag.noConfusion hc⟩
          | some loc =>
            simp only [stepBot, wait_for_landing_site, hf, Except.ok.injEq,
              Prod.mk.injEq] at h
            rw [← h.2]
            refine ⟨?_, fun _ => by simp⟩
            intro ts' hts'
            have hlt := find_site_lt terrain loc hf
            simp only [Option.some.injEq] at hts'
            omega
    case alignWithLandingSite =>
      by_cases hemp : terrain = []
      · simp only [stepBot, align_with_landing_site, if_pos hemp] at h
        exact Except.noConfusion h
      · cases tsite with
        | none =>
          simp only [stepBot, align_with_landing_site, if_neg hemp] at h
          exact Except.noConfusion h
        | some ts =>
          simp only [stepBot, align_with_landing_site, if_neg hemp, Except.ok.injEq,
            Prod.mk.injEq] at h
          rw [← h.2]
          refine ⟨?_, fun _ => by simp⟩
          intro ts' hts'
          have hb := hinv.1 ts rfl
          simp only [Option.some.injEq] at hts'
          omega
    case land =>
      cases tsite with
      | none =>
        simp only [stepBot, land] at h
        exact Except.noConfusion h
      | some ts =>
        by_cases hts : ts < terrain.length
        · simp only [stepBot, land, if_pos hts, Except.ok.injEq, Prod.mk.injEq] at h
          rw [← h.2]
          refine ⟨?_, fun _ => by simp⟩
          intro ts' hts'
          have hb := hinv.1 ts rfl
          simp only [Option.some.injEq] at hts'
          omega
        · simp only [stepBot, land, if_neg hts] at h
          exact Except.noConfusion h
  · intro hstl
    obtain ⟨tsite, st⟩ := b
    cases st
    case initialManoeuvre =>
      rcases hstl with h | h <;> exact StateTag.noConfusion h
    case waitForLandingSite =>
      rcases hstl with h | h <;> exact StateTag.noConfusion h
    case alignWithLandingSite =>
      have hne : tsite ≠ none := hinv.2 (Or.inl rfl)
      obtain ⟨ts, rfl⟩ := Option.ne_none_iff_exists'.mp hne
      have hts : ts < terrain.length := hinv.1 ts rfl
      have hemp : terrain ≠ [] := by
        intro he
        rw [he] at hts
        simp at hts
      cases hstep : stepBot cfg ⟨some ts, .alignWithLandingSite⟩ me terrain with
      | ok p => exact ⟨p, rfl⟩
      | error e =>
        simp only [stepBot, align_with_landing_site, if_neg hemp] at hstep
        exact Except.noConfusion hstep
    case land =>
      have hne : tsite ≠ none := hinv.2 (Or.inr rfl)
      obtain ⟨ts, rfl⟩ := Option.ne_none_iff_exists'.mp hne
      have hts : ts < terrain.length := hinv.1 ts rfl
      cases hstep : stepBot cfg ⟨some ts, .land⟩ me terrain with
      | ok p => exact ⟨p, rfl⟩
      | error e =>
        simp only [stepBot, land, if_pos hts] at hstep
        exact Except.noConfusion hstep

/-- Claim C10 witness: the invariant holds concretely in the landing state
with site 0 over the one-sample terrain, and the theorem yields preservation
and a successful tick there. -/
theorem claim_C10_witness :
    SiteInv ⟨some 0, .land⟩ ([(0 : ℚ)].length) ∧
    (SiteInv initBot ([(0 : ℚ)].length) ∧
     (∀ out b', stepBot cfgT4 ⟨some 0, .land⟩ meDrop [(0 : ℚ)] = .ok (out, b') →
        SiteInv b' ([(0 : ℚ)].length)) ∧
     (((⟨some 0, .land⟩ : BotState).state = .alignWithLandingSite ∨
       (⟨some 0, .land⟩ : BotState).state = .land) →
       ∃ p, stepBot cfgT4 ⟨some 0, .land⟩ meDrop [(0 : ℚ)] = .ok p)) := by
  have hinv : SiteInv ⟨some 0, .land⟩ ([(0 : ℚ)].length) := by
    constructor
    · intro ts h
      simp only [Option.some.injEq] at h
      simp [← h]
    · intro _
      simp
  exact ⟨hinv, claim_C10 cfgT4 ⟨some 0, .land⟩ meDrop [(0 : ℚ)] hinv⟩

end LLBot
